import Mathlib

/-!
Shallow embedding of the two scripts of the `unglish/word-generator`
repository (`scripts/sample-cmu-words.py` and `scripts/run-baseline.py`),
together with theorems settling the specification claims about them.

Conventions of the embedding:
* Python machine floats are modelled by `ℚ`; the scripts only sum, divide,
  sort and index score values, so no rounding behaviour is involved.
* Fallible Python code (uncaught exceptions) is modelled with
  `Except String`; the error string names the Python exception raised.
* The CPython global pseudorandom generator is an external collaborator;
  it is modelled as a deterministic state machine (`RandState`), its state
  threaded explicitly.  The selection algorithm of `random.sample` is
  translated from CPython (the pool-copy branch, a partial Fisher-Yates
  shuffle); `random.seed` replaces the state by a function of the seed.
* The filesystem is modelled by the list of paths that currently exist;
  temporary-file creation and `os.remove` act on that list.
-/

/-- State of the modelled pseudorandom generator.  CPython's Mersenne
Twister is represented by a single 64-bit congruential word: the claims
depend only on the generator being a pure function of its state, which
both MT19937 and this representation satisfy. -/
structure RandState where
  s : Nat
deriving DecidableEq

/-- Multiplier of the modelled generator step (Knuth's MMIX constant). -/
def mtMult : Nat := 6364136223846793005

/-- Increment of the modelled generator step. -/
def mtInc : Nat := 1442695040888963407

/-- Model of `random.seed(seed)`: the generator state becomes a function
of the seed alone; whatever state the generator had before is discarded. -/
def seedState (seed : Int) : RandState :=
  ⟨(seed.natAbs * mtMult + mtInc) % 2 ^ 64⟩

/-- Model of `random._randbelow(n)`: one generator step, returning a
number below `n` (for `n > 0`) and the successor state. -/
def randbelow (n : Nat) (g : RandState) : Nat × RandState :=
  let t := (g.s * mtMult + mtInc) % 2 ^ 64
  ((t >>> 33) % n, ⟨t⟩)

/-- Selection loop of CPython `random.sample` (the pool-copy branch):
`for i in range(k): j = randbelow(n-i); result[i] = pool[j];
pool[j] = pool[n-i-1]`.  `n` is the population size, `i` the number of
draws already made. -/
def sampleGo {α : Type} [Inhabited α] (n : Nat) :
    Nat → Nat → List α → RandState → List α × RandState
  | 0, _, _, g => ([], g)
  | k + 1, i, pool, g =>
      let jg := randbelow (n - i) g
      let x := pool.getD jg.1 default
      let pool2 := pool.set jg.1 (pool.getD (n - i - 1) default)
      let rg := sampleGo n k (i + 1) pool2 jg.2
      (x :: rg.1, rg.2)

/-- Model of `random.sample(population, k)`: raises
`ValueError` when `k > len(population)`, otherwise runs the selection
loop on a copy of the population. -/
def random_sample {α : Type} [Inhabited α] (population : List α) (k : Nat)
    (g : RandState) : Except String (List α × RandState) :=
  if k ≤ population.length then .ok (sampleGo population.length k 0 population g)
  else .error "ValueError: Sample larger than population or is negative"

/-- A candidate of `sample-cmu-words.py`: the word paired with its
stress-stripped pronunciation, as appended by the filter loop of `main`. -/
abbrev Candidate := String × List String

/-- The sampling operation of `main` in `sample-cmu-words.py`:
`random.seed(seed)` followed by
`random.sample(candidates, min(size, len(candidates)))`.  The generator
state held before the call is taken explicitly (`g0`) and discarded by
the seeding, exactly as in the script.  `main` calls this with
`size = 100`. -/
def sampleOp {α : Type} [Inhabited α] (candidates : List α) (seed : Int)
    (size : Nat) (_g0 : RandState) : Except String (List α × RandState) :=
  random_sample candidates (min size candidates.length) (seedState seed)

/-- The concrete call made by `main`: sample size 100. -/
def mainSample (candidates : List Candidate) (seed : Int) (g0 : RandState) :
    Except String (List Candidate × RandState) :=
  sampleOp candidates seed 100 g0

/-- A stress-digit character of ARPABET: the values 0, 1, 2 that
`p.rstrip('012')` removes from the right of a symbol. -/
def stressDigit (c : Char) : Bool := c = '0' || c = '1' || c = '2'

/-- Model of Python `p.rstrip('012')`: drop from the right end of the
symbol every character belonging to the set of stress digits. -/
def rstrip012 (p : String) : String :=
  ⟨(p.data.reverse.dropWhile stressDigit).reverse⟩

/-- `strip_stress(phones)` of `sample-cmu-words.py`:
`[p.rstrip('012') for p in phones]`. -/
def strip_stress (phones : List String) : List String :=
  phones.map rstrip012

/-- Truth value of Python `p[-1].isdigit()` for a non-empty symbol `p`
(`Char.isDigit` covers the ASCII digits, the only digits that occur in
ARPABET symbols); false for an empty symbol, on which the script itself
raises `IndexError` instead. -/
def digitFinal (p : String) : Bool :=
  match p.data.getLast? with
  | some c => c.isDigit
  | none => false

/-- `count_syllables(phones)` of `sample-cmu-words.py`:
`sum(1 for p in phones if p[-1].isdigit())`.  Evaluating `p[-1]` on an
empty symbol raises `IndexError`, modelled as the error case. -/
def count_syllables : List String → Except String Nat
  | [] => .ok 0
  | p :: rest =>
      match p.data.getLast? with
      | none => .error "IndexError: string index out of range"
      | some c =>
          (count_syllables rest).map (fun m => (if c.isDigit then 1 else 0) + m)

/-- Model of Python `word.isalpha()`: non-empty and all characters
alphabetic (restricted to ASCII letters, which CMU words consist of). -/
def isalpha (w : String) : Bool := !w.data.isEmpty && w.data.all Char.isAlpha

/-- One iteration of the candidate filter loop of `main` in
`sample-cmu-words.py`: entries with other than one pronunciation are
skipped; otherwise the syllables of the sole pronunciation are counted
(possibly raising `IndexError`), and the entry is admitted when the count
lies in [1, 4] and the word is alphabetic, yielding the word paired with
the stress-stripped pronunciation. -/
def filterEntry (word : String) (pronunciations : List (List String)) :
    Except String (Option (String × List String)) :=
  if pronunciations.length ≠ 1 then .ok none
  else
    match count_syllables (pronunciations.headD []) with
    | .error e => .error e
    | .ok syls =>
        if 1 ≤ syls ∧ syls ≤ 4 ∧ isalpha word = true then
          .ok (some (word, strip_stress (pronunciations.headD [])))
        else .ok none

/-- The candidate-construction loop of `main` over the dictionary items,
in order; admitted entries are appended in order, and an exception during
an iteration aborts the construction. -/
def buildCandidates : List (String × List (List String)) →
    Except String (List (String × List String))
  | [] => .ok []
  | e :: rest =>
      match filterEntry e.1 e.2 with
      | .error err => .error err
      | .ok none => buildCandidates rest
      | .ok (some c) => (buildCandidates rest).map (fun cs => c :: cs)

/-- Stated from the spec (sections 4.1 and 4.2): the number of symbols
carrying a stress digit, the stress digits being the characters 0, 1
and 2.  Used only to compare the spec's eligibility rule against the
code's. -/
def specStressSyllableCount (phones : List String) : Nat :=
  phones.countP (fun p =>
    match p.data.getLast? with
    | some c => stressDigit c
    | none => false)

/- Decidable equality of `Except` results, used to evaluate the embedding
at concrete inputs. -/
deriving instance DecidableEq for Except

/-- Model of Python `s.strip()`: remove leading and trailing whitespace. -/
def pyStrip (s : String) : String :=
  ⟨((s.data.dropWhile Char.isWhitespace).reverse.dropWhile Char.isWhitespace).reverse⟩

/-- Helper of `pySplit`: walk the characters, `acc` holding the current
field reversed. -/
def pySplitAux (sep : Char) : List Char → List Char → List (List Char)
  | [], acc => [acc.reverse]
  | c :: rest, acc =>
      if c = sep then acc.reverse :: pySplitAux sep rest []
      else pySplitAux sep rest (c :: acc)

/-- Model of Python `s.split(sep)` for a one-character separator: split at
every occurrence, preserving empty fields. -/
def pySplit (sep : Char) (s : String) : List String :=
  (pySplitAux sep s.data []).map fun l => ⟨l⟩

/-- Numeric value of a string of decimal digits. -/
def digitsVal (l : List Char) : Nat :=
  l.foldl (fun a c => a * 10 + (c.toNat - 48)) 0

/-- Model of Python `float(s)` restricted to plain decimal literals
(optional sign, digits, optional fractional part), which is what the
scoring engine emits; `none` where `float` raises `ValueError`. -/
def pyFloat (s : String) : Option ℚ :=
  let t := (pyStrip s).data
  let sb : Bool × List Char :=
    match t with
    | '-' :: rest => (true, rest)
    | '+' :: rest => (false, rest)
    | l => (false, l)
  match pySplitAux '.' sb.2 [] with
  | [ip] =>
      if ip ≠ [] ∧ ip.all Char.isDigit then
        some (if sb.1 then -(digitsVal ip : ℚ) else (digitsVal ip : ℚ))
      else none
  | [ip, fp] =>
      if ip ≠ [] ∧ fp ≠ [] ∧ ip.all Char.isDigit ∧ fp.all Char.isDigit then
        some (if sb.1 then
            -((digitsVal ip : ℚ) + (digitsVal fp : ℚ) / (10 : ℚ) ^ fp.length)
          else (digitsVal ip : ℚ) + (digitsVal fp : ℚ) / (10 : ℚ) ^ fp.length)
      else none
  | _ => none

/-- The metric column name extracted by `run-baseline.py`. -/
def score_col : String :=
  "ngram_n2_pos_none_bound_both_smooth_laplace_weight_none_prob_conditional_agg_prod"

/-- The data-row loop of the output parser of `run-baseline.py`:
`[float(line.split(',')[idx]) for line in lines[1:] if line.strip()]`,
raising `IndexError` when a row has no field `idx` and `ValueError` when
the field is not numeric. -/
def parseRows (idx : Nat) : List String → Except String (List ℚ)
  | [] => .ok []
  | line :: rest =>
      if (pyStrip line).data = [] then parseRows idx rest
      else
        match (pySplit ',' line).get? idx with
        | none => .error "IndexError: list index out of range"
        | some field =>
            match pyFloat field with
            | none => .error "ValueError: could not convert string to float"
            | some v => (parseRows idx rest).map (fun vs => v :: vs)

/-- Output parsing of `run-baseline.py`: split the header row on commas,
locate the score column (`headers.index` raises `ValueError` when it is
absent), then parse the remaining non-blank data rows.  No comparison
against the number of input lines is performed anywhere. -/
def parseScores (lines : List String) : Except String (List ℚ) :=
  match lines with
  | [] => .error "IndexError: list index out of range"
  | header :: rest =>
      match (pySplit ',' header).findIdx? (fun h => h == score_col) with
      | none => .error "ValueError: substring not found"
      | some idx => parseRows idx rest

/-- One per-seed summary line of `run-baseline.py` (`mean`, `median`,
`min_s`, `max_s` and `n`, as the script names them). -/
structure SeedSummary where
  mean : ℚ
  median : ℚ
  min_s : ℚ
  max_s : ℚ
  n : Nat
deriving DecidableEq

/-- The statistics block of the per-seed loop: `scores.sort()` (modelled
as the ascending sorted permutation, the only property the script relies
on), then `mean = sum/len` — raising `ZeroDivisionError` on an empty
list — `median = scores[len//2]`, `min_s = scores[0]`,
`max_s = scores[-1]`, `n = len(scores)`. -/
def summarize (scores0 : List ℚ) : Except String SeedSummary :=
  let scores := scores0.insertionSort (· ≤ ·)
  if scores.length = 0 then .error "ZeroDivisionError: division by zero"
  else
    .ok { mean := scores.sum / scores.length,
          median := scores.getD (scores.length / 2) 0,
          min_s := scores.getD 0 0,
          max_s := scores.getD (scores.length - 1) 0,
          n := scores.length }

/-- The temp input path `.tmp-baseline-{seed}.csv` of the per-seed loop. -/
def inputPath (seed : Int) : String :=
  ".tmp-baseline-" ++ toString seed ++ ".csv"

/-- The temp output path `.tmp-baseline-{seed}-out.csv`. -/
def outputPath (seed : Int) : String :=
  ".tmp-baseline-" ++ toString seed ++ "-out.csv"

/-- Behaviour of one scoring-engine invocation (an external collaborator
at a process boundary): either it exceeds the 60-second limit of
`subprocess.run(..., timeout=60)`, which raises `TimeoutExpired`, or it
terminates leaving an output file with the given lines. -/
inductive EngineResult where
  | timeout
  | output (lines : List String)

/-- Creating (or truncating) a file: its path exists afterwards.  The
filesystem is modelled as the list of existing paths. -/
def fsAdd (p : String) (fs : List String) : List String :=
  if p ∈ fs then fs else fs ++ [p]

/-- One iteration of the per-seed loop of `run-baseline.py`, from the
temp-file write onward: write the input file, invoke the engine (a
timeout propagates `TimeoutExpired` out of the iteration), read the
output file the engine left, parse it, summarize, and only after all of
that delete the two temp files with `os.remove`.  There is no
`try`/`finally`: no deletion happens on an error path.  `words` is the
sampled word list written to the input file; the script never reads it
back, so only the file's existence matters to the model. -/
def perSeed (engine : EngineResult) (words : List String) (seed : Int)
    (fs : List String) : Except String SeedSummary × List String :=
  let fs1 := fsAdd (inputPath seed) fs
  match engine with
  | .timeout => (.error "TimeoutExpired", fs1)
  | .output lines =>
      let fs2 := fsAdd (outputPath seed) fs1
      match parseScores lines with
      | .error e => (.error e, fs2)
      | .ok scores =>
          match summarize scores with
          | .error e => (.error e, fs2)
          | .ok s =>
              (.ok s, (fs2.erase (inputPath seed)).erase (outputPath seed))

/-- The module-level loop `for seed in seeds:` of `run-baseline.py`.
There is no exception handling anywhere in the script, so an uncaught
exception in one iteration terminates the process; summary lines printed
by earlier iterations remain.  Returns the summaries produced, the
uncaught error if any, and the final filesystem. -/
def runBaseline (engine : Int → EngineResult) (wordsOf : Int → List String) :
    List Int → List String →
      List (Int × SeedSummary) × Option String × List String
  | [], fs => ([], none, fs)
  | s :: rest, fs =>
      match perSeed (engine s) (wordsOf s) s fs with
      | (.error e, fs1) => ([], some e, fs1)
      | (.ok summary, fs1) =>
          let r := runBaseline engine wordsOf rest fs1
          ((s, summary) :: r.1, r.2.1, r.2.2)

/-- The fixed seed list of `run-baseline.py`. -/
def seeds : List Int := [42, 123, 456, 789, 1337]

/-- The selection loop always emits exactly `k` elements. -/
theorem sampleGo_length {α : Type} [Inhabited α] (n : Nat) :
    ∀ (k i : Nat) (pool : List α) (g : RandState),
      (sampleGo n k i pool g).1.length = k := by
  intro k
  induction k with
  | zero => intro i pool g; rfl
  | succ k ih =>
      intro i pool g
      simp only [sampleGo, List.length_cons, ih]

/-- C1. The sampling operation is deterministic: for a fixed candidate
pool (in a fixed order) and a fixed seed, its result does not depend on
the generator state held before the call (which `random.seed` discards),
so two invocations with identical pool and identical seed yield identical
samples, element for element and in the same order. -/
theorem C1_determinism (pool : List Candidate) (seed : Int) (size : Nat)
    (g1 g2 : RandState) :
    sampleOp pool seed size g1 = sampleOp pool seed size g2 ∧
    ∀ i : Nat,
      (sampleOp pool seed size g1).map (fun r => r.1.get? i) =
        (sampleOp pool seed size g2).map (fun r => r.1.get? i) :=
  ⟨rfl, fun _ => rfl⟩

/-- C4, counterexample to the claim as stated.  The claim asserts that the
sampling operation fails with `InsufficientCandidatesError` when the
candidate sequence is empty; in the script the call is
`random.sample(candidates, min(100, len(candidates)))`, so on an empty
pool the requested size is 0 and `random.sample` succeeds with the empty
sample — no error of any kind is raised. -/
theorem C4_counterexample :
    mainSample [] 42 ⟨0⟩ = .ok ([], seedState 42) := rfl

/-- C4, amended.  The sampling operation never fails: for every candidate
sequence it succeeds, silently capping the requested size at the number of
available candidates, and on an empty candidate sequence it returns the
empty sample rather than raising `InsufficientCandidatesError`. -/
theorem C4_never_insufficient (pool : List Candidate) (seed : Int)
    (size : Nat) (g0 : RandState) :
    ∃ r, sampleOp pool seed size g0 = .ok r ∧
      r.1.length = min size pool.length ∧ (pool = [] → r.1 = []) := by
  refine ⟨sampleGo pool.length (min size pool.length) 0 pool (seedState seed),
    ?_, ?_, ?_⟩
  · simp [sampleOp, random_sample, Nat.min_le_right]
  · exact sampleGo_length pool.length (min size pool.length) 0 pool (seedState seed)
  · intro h
    subst h
    simp [sampleGo]

/-- Witness for C4_never_insufficient at a concrete input. -/
theorem C4_never_insufficient_witness :
    ∃ r, sampleOp [(("cat" : String), (["K", "AE", "T"] : List String))] 7 100 ⟨0⟩ = .ok r ∧
      r.1.length = min 100 1 ∧
      (([(("cat" : String), (["K", "AE", "T"] : List String))] : List Candidate) = [] → r.1 = []) := by
  obtain ⟨r, h1, h2, h3⟩ :=
    C4_never_insufficient [("cat", ["K", "AE", "T"])] 7 100 ⟨0⟩
  exact ⟨r, h1, by simpa using h2, fun h => h3 h⟩

/-- An in-range `getD` is an element of the list. -/
theorem getD_mem_of_lt {α : Type} (l : List α) (j : Nat) (d : α)
    (h : j < l.length) : l.getD j d ∈ l := by
  rw [List.getD_eq_getElem?_getD, List.getElem?_eq_getElem h]
  exact List.getElem_mem h

/-- Replacing the distinguished middle element of a list changes its
multiset by erasing the old value and adjoining the new one. -/
theorem coe_middle_erase {α : Type} [DecidableEq α] (A B : List α) (x y : α) :
    ((A ++ y :: B : List α) : Multiset α) =
      y ::ₘ ((A ++ x :: B : List α) : Multiset α).erase x := by
  have h1 : ((A ++ x :: B : List α) : Multiset α) =
      x ::ₘ ((A ++ B : List α) : Multiset α) := by
    simp only [← Multiset.coe_add, ← Multiset.cons_coe, ← Multiset.singleton_add]
    abel
  have h2 : ((A ++ y :: B : List α) : Multiset α) =
      y ::ₘ ((A ++ B : List α) : Multiset α) := by
    simp only [← Multiset.coe_add, ← Multiset.cons_coe, ← Multiset.singleton_add]
    abel
  rw [h1, h2, Multiset.erase_cons_head]

/-- Overwriting an in-range position replaces one occurrence of the old
value, viewed as a multiset. -/
theorem coe_set_eq {α : Type} [DecidableEq α] (l : List α) (j : Nat) (y d : α)
    (h : j < l.length) :
    ((l.set j y : List α) : Multiset α) =
      y ::ₘ ((l : Multiset α).erase (l.getD j d)) := by
  have hgd : l.getD j d = l[j] := by
    rw [List.getD_eq_getElem?_getD, List.getElem?_eq_getElem h, Option.getD_some]
  have hset : l.set j y = l.take j ++ y :: l.drop (j + 1) := by
    rw [List.set_eq_take_append_cons_drop, if_pos h]
  have hl : (l : Multiset α) =
      ((l.take j ++ l[j] :: l.drop (j + 1) : List α) : Multiset α) := by
    rw [← List.drop_eq_getElem_cons h, List.take_append_drop]
  rw [hgd, hset, hl]
  exact coe_middle_erase _ _ _ y

/-- One selection step: drawing position `j` from the active prefix of
length `t` and moving the last active element into its place leaves an
active prefix of length `t - 1` holding the old active elements minus the
drawn one. -/
theorem take_pred_set_erase {α : Type} [DecidableEq α] (pool : List α)
    (t j : Nat) (d : α) (ht : t ≤ pool.length) (ht1 : 1 ≤ t) (hj : j < t) :
    (((pool.set j (pool.getD (t - 1) d)).take (t - 1) : List α) : Multiset α) =
      ((pool.take t : List α) : Multiset α).erase (pool.getD j d) := by
  have hlenA : (pool.take (t - 1)).length = t - 1 := by
    rw [List.length_take]; omega
  have h1 : t - 1 < pool.length := by omega
  have htake : pool.take t = pool.take (t - 1) ++ [pool.getD (t - 1) d] := by
    conv_lhs => rw [show t = (t - 1) + 1 from by omega]
    rw [List.take_succ, List.getElem?_eq_getElem h1]
    rw [List.getD_eq_getElem?_getD, List.getElem?_eq_getElem h1, Option.getD_some]
    rfl
  rw [List.set_take]
  by_cases hcase : j < t - 1
  · have hjA : j < (pool.take (t - 1)).length := by rw [hlenA]; exact hcase
    have hx : (pool.take (t - 1)).getD j d = pool.getD j d := by
      rw [List.getD_eq_getElem?_getD, List.getD_eq_getElem?_getD,
        List.getElem?_take_of_lt hcase]
    rw [coe_set_eq _ j _ d hjA, hx, htake]
    have hmem : pool.getD j d ∈ ((pool.take (t - 1) : List α) : Multiset α) := by
      rw [← hx]
      exact Multiset.mem_coe.mpr (getD_mem_of_lt _ j d hjA)
    rw [← Multiset.coe_add, Multiset.coe_singleton,
      Multiset.erase_add_left_pos _ hmem, add_comm, Multiset.singleton_add]
  · have hj1 : j = t - 1 := by omega
    subst hj1
    rw [List.set_eq_of_length_le (le_of_eq hlenA), htake, ← Multiset.coe_add,
      Multiset.coe_singleton, add_comm, Multiset.singleton_add,
      Multiset.erase_cons_head]

/-- Loop invariant of the selection loop: when the pool has length `n` and
at least `k` more draws fit into the active prefix, the emitted elements
form a sub-multiset of the active prefix `pool.take (n - i)`. -/
theorem sampleGo_le {α : Type} [Inhabited α] [DecidableEq α] (n : Nat) :
    ∀ (k i : Nat) (pool : List α) (g : RandState), pool.length = n → i + k ≤ n →
      ((sampleGo n k i pool g).1 : Multiset α) ≤
        ((pool.take (n - i) : List α) : Multiset α) := by
  intro k
  induction k with
  | zero => intro i pool g _ _; exact Multiset.zero_le _
  | succ k ih =>
      intro i pool g hlen hik
      have htpos : 0 < n - i := by omega
      have hj : (randbelow (n - i) g).1 < n - i := Nat.mod_lt _ htpos
      have hlen2 : (pool.set (randbelow (n - i) g).1
          (pool.getD (n - i - 1) default)).length = n := by
        rw [List.length_set, hlen]
      have hrest := ih (i + 1)
        (pool.set (randbelow (n - i) g).1 (pool.getD (n - i - 1) default))
        (randbelow (n - i) g).2 hlen2 (by omega)
      have hstep : (((pool.set (randbelow (n - i) g).1
            (pool.getD (n - i - 1) default)).take (n - (i + 1)) : List α) : Multiset α) =
          ((pool.take (n - i) : List α) : Multiset α).erase
            (pool.getD (randbelow (n - i) g).1 default) := by
      
        rw [show n - (i + 1) = (n - i) - 1 from by omega]
        exact take_pred_set_erase pool (n - i) (randbelow (n - i) g).1 default
          (by omega) (by omega) hj
      have hmem : pool.getD (randbelow (n - i) g).1 default ∈
          ((pool.take (n - i) : List α) : Multiset α) := by
        have hjlen : (randbelow (n - i) g).1 < (pool.take (n - i)).length := by
          rw [List.length_take]; omega
        have hx : (pool.take (n - i)).getD (randbelow (n - i) g).1 default =
            pool.getD (randbelow (n - i) g).1 default := by
          rw [List.getD_eq_getElem?_getD, List.getD_eq_getElem?_getD,
            List.getElem?_take_of_lt hj]
        rw [← hx]
        exact Multiset.mem_coe.mpr (getD_mem_of_lt _ _ default hjlen)
      have hcons : ((sampleGo n (k + 1) i pool g).1 : Multiset α) =
          pool.getD (randbelow (n - i) g).1 default ::ₘ
            ((sampleGo n k (i + 1)
              (pool.set (randbelow (n - i) g).1 (pool.getD (n - i - 1) default))
              (randbelow (n - i) g).2).1 : Multiset α) := by
        simp only [sampleGo, Multiset.cons_coe]
      rw [hcons]
      exact le_of_le_of_eq
        (Multiset.cons_le_cons _ (le_of_le_of_eq hrest (by rw [hstep])))
        (Multiset.cons_erase hmem)

/-- C9. For every candidate sequence without duplicates (candidate pools
are keyed by the distinct words of the dictionary) and every requested
size, the produced sample contains exactly `min size (length candidates)`
candidates, all distinct (drawn without replacement) and all taken from
the candidate sequence; the sample list is emitted in the generator's
selection order. -/
theorem C9_sample (pool : List Candidate) (seed : Int) (size : Nat)
    (g0 : RandState) (hnd : pool.Nodup) :
    ∃ s gf, sampleOp pool seed size g0 = .ok (s, gf) ∧
      s.length = min size pool.length ∧ s.Nodup ∧ ∀ x ∈ s, x ∈ pool := by
  have hk : min size pool.length ≤ pool.length := Nat.min_le_right _ _
  have hok : sampleOp pool seed size g0 =
      .ok (sampleGo pool.length (min size pool.length) 0 pool (seedState seed)) := by
    simp [sampleOp, random_sample, hk]
  have hle := sampleGo_le pool.length (min size pool.length) 0 pool
    (seedState seed) rfl (by omega)
  rw [Nat.sub_zero, List.take_length] at hle
  refine ⟨_, _, hok, ?_, ?_, ?_⟩
  · exact sampleGo_length pool.length (min size pool.length) 0 pool (seedState seed)
  · exact Multiset.coe_nodup.mp
      (Multiset.nodup_of_le hle (Multiset.coe_nodup.mpr hnd))
  · intro x hx
    exact Multiset.mem_coe.mp (Multiset.subset_of_le hle (Multiset.mem_coe.mpr hx))

/-- Witness for C9_sample at a concrete three-candidate pool. -/
theorem C9_sample_witness :
    ∃ s gf,
      sampleOp [(("aa" : String), (["AA"] : List String)), ("bb", ["B", "IY"]),
        ("cc", ["S", "IY"])] 1 2 ⟨0⟩ = .ok (s, gf) ∧
      s.length = min 2 3 ∧ s.Nodup ∧
      ∀ x ∈ s, x ∈ [(("aa" : String), (["AA"] : List String)), ("bb", ["B", "IY"]),
        ("cc", ["S", "IY"])] := by
  have h := C9_sample [("aa", ["AA"]), ("bb", ["B", "IY"]), ("cc", ["S", "IY"])]
    1 2 ⟨0⟩ (by decide)
  simpa using h

/-- Dropping a prefix twice with the same predicate drops nothing new. -/
theorem dropWhile_dropWhile {α : Type} (p : α → Bool) (l : List α) :
    (l.dropWhile p).dropWhile p = l.dropWhile p := by
  cases h : l.dropWhile p with
  | nil => rfl
  | cons a t =>
      have ha : p a = false := by
        have hw : l.dropWhile p ≠ [] := by simp [h]
        have := List.head_dropWhile_not p l hw
        simpa [h] using this
      simp [List.dropWhile_cons, ha]

/-- `rstrip012` is idempotent on a single symbol. -/
theorem rstrip012_idem (p : String) : rstrip012 (rstrip012 p) = rstrip012 p := by
  unfold rstrip012
  simp only [List.reverse_reverse]
  rw [dropWhile_dropWhile]

/-- Each symbol splits into its stripped form followed by the removed
trailing run of stress digits. -/
theorem rstrip012_decomp (p : String) :
    p.data = (rstrip012 p).data ++ (p.data.reverse.takeWhile stressDigit).reverse := by
  conv_lhs => rw [← List.reverse_reverse p.data,
    ← List.takeWhile_append_dropWhile stressDigit p.data.reverse]
  rw [List.reverse_append]
  rfl

/-- A symbol whose last character is not a stress digit (or which is empty)
passes through `rstrip012` unchanged. -/
theorem rstrip012_noop (p : String)
    (h : ∀ c, p.data.getLast? = some c → stressDigit c = false) :
    rstrip012 p = p := by
  cases hr : p.data.reverse with
  | nil =>
      have hnil : p.data = [] := by
        simpa using congrArg List.reverse hr
      unfold rstrip012
      rw [hr]
      simp only [List.dropWhile_nil, List.reverse_nil]
      rw [← hnil]
  | cons c t =>
      have hlast : p.data.getLast? = some c := by
        have h2 := List.getLast?_reverse p.data.reverse
        rw [List.reverse_reverse] at h2
        rw [h2, hr]
        rfl
      have hc : stressDigit c = false := h c hlast
      unfold rstrip012
      rw [hr, List.dropWhile_cons, if_neg (by simp [hc])]
      rw [← hr, List.reverse_reverse]

/-- C8. `strip_stress` is a total pure function over every symbol
sequence; it removes the trailing run of stress-digit characters (0, 1, 2)
of each symbol (the decomposition below), leaves a symbol without a
trailing stress digit unchanged, and is idempotent. -/
theorem C8_strip_stress :
    (∀ phones : List String,
      strip_stress (strip_stress phones) = strip_stress phones) ∧
    (∀ p : String,
      p.data = (rstrip012 p).data ++ (p.data.reverse.takeWhile stressDigit).reverse ∧
      ∀ c ∈ (p.data.reverse.takeWhile stressDigit).reverse, stressDigit c = true) ∧
    (∀ p : String,
      (∀ c, p.data.getLast? = some c → stressDigit c = false) → rstrip012 p = p) ∧
    (∀ phones : List String, strip_stress phones = phones.map rstrip012) := by
  refine ⟨?_, ?_, rstrip012_noop, fun _ => rfl⟩
  · intro phones
    unfold strip_stress
    rw [List.map_map]
    exact List.map_congr_left (fun p _ => rstrip012_idem p)
  · intro p
    refine ⟨rstrip012_decomp p, ?_⟩
    intro c hc
    exact List.mem_takeWhile_imp (List.mem_reverse.mp hc)

/-- Witness for C8_strip_stress at concrete symbols. -/
theorem C8_strip_stress_witness :
    strip_stress (strip_stress ["AH0", "K", "IY12"]) =
      strip_stress ["AH0", "K", "IY12"] ∧
    rstrip012 "K" = "K" := by
  refine ⟨C8_strip_stress.1 ["AH0", "K", "IY12"], ?_⟩
  exact C8_strip_stress.2.2.1 "K" (by decide)

/-- On symbols that are all non-empty, `count_syllables` succeeds and
returns the number of symbols whose final character is a digit. -/
theorem count_syllables_ok (phones : List String)
    (h : ∀ p ∈ phones, p.data ≠ []) :
    count_syllables phones = .ok (phones.countP digitFinal) := by
  induction phones with
  | nil => rfl
  | cons p rest ih =>
      have hp : p.data ≠ [] := h p (by simp)
      obtain ⟨c, hc⟩ : ∃ c, p.data.getLast? = some c := by
        cases hgl : p.data.getLast? with
        | none => exact absurd (List.getLast?_eq_none_iff.mp hgl) hp
        | some c => exact ⟨c, rfl⟩
      rw [count_syllables, hc, ih (fun q hq => h q (by simp [hq]))]
      simp [Except.map, List.countP_cons, digitFinal, hc, Nat.add_comm]

/-- When `count_syllables` succeeds, every symbol was non-empty. -/
theorem count_syllables_ok_inv (phones : List String) (n : Nat)
    (h : count_syllables phones = .ok n) : ∀ p ∈ phones, p.data ≠ [] := by
  induction phones generalizing n with
  | nil => intro p hp; cases hp
  | cons p rest ih =>
      intro q hq
      rw [count_syllables] at h
      cases hgl : p.data.getLast? with
      | none => rw [hgl] at h; simp at h
      | some c =>
          rw [hgl] at h
          cases hrest : count_syllables rest with
          | error e => rw [hrest] at h; simp [Except.map] at h
          | ok m =>
              rcases List.mem_cons.mp hq with rfl | hq2
              · intro hqnil
                rw [hqnil] at hgl
                cases hgl
              · exact ih m hrest q hq2

/-- C7, counterexample to the claim as stated.  The code admits an entry
when the final character of a symbol is any decimal digit
(`p[-1].isdigit()`), not only a stress digit 0, 1 or 2: the entry
`("ab", [["K3"]])` has no symbol carrying a stress digit (its spec-side
syllable count is 0, outside [1, 4]), yet the filter admits it because
`'3'` is a digit. -/
theorem C7_counterexample :
    filterEntry "ab" [["K3"]] = .ok (some ("ab", ["K3"])) ∧
    ¬ (1 ≤ specStressSyllableCount ["K3"] ∧
       specStressSyllableCount ["K3"] ≤ 4) := by
  decide

/-- C7, amended.  A dictionary entry is admitted to the candidate pool iff
it has exactly one pronunciation variant, every symbol of that variant is
non-empty (on an entry with an empty symbol the filter raises `IndexError`
instead of deciding), the number of symbols whose final character is a
decimal digit — counted before stress stripping — lies in [1, 4], and its
word is purely alphabetic (non-empty, all characters alphabetic); and
membership in the constructed candidate pool is exactly admission of some
entry of the dictionary. -/
theorem C7_eligibility :
    (∀ (word : String) (prons : List (List String)),
      (∃ wp, filterEntry word prons = .ok (some wp)) ↔
        (prons.length = 1 ∧ (∀ p ∈ prons.headD [], p.data ≠ []) ∧
         1 ≤ (prons.headD []).countP digitFinal ∧
         (prons.headD []).countP digitFinal ≤ 4 ∧ isalpha word = true)) ∧
    (∀ entries cs c, buildCandidates entries = .ok cs →
      (c ∈ cs ↔ ∃ e ∈ entries, filterEntry e.1 e.2 = .ok (some c))) := by
  constructor
  · intro word prons
    constructor
    · rintro ⟨wp, hwp⟩
      unfold filterEntry at hwp
      rcases eq_or_ne prons.length 1 with hlen | hlen
      · rw [if_neg (by simp [hlen])] at hwp
        cases hcs : count_syllables (prons.headD []) with
        | error e => rw [hcs] at hwp; simp at hwp
        | ok syls =>
            rw [hcs] at hwp
            by_cases hcond : 1 ≤ syls ∧ syls ≤ 4 ∧ isalpha word = true
            · have hne := count_syllables_ok_inv _ _ hcs
              have hval : syls = (prons.headD []).countP digitFinal := by
                have h2 := count_syllables_ok (prons.headD []) hne
                rw [hcs] at h2
                exact Except.ok.inj h2
              exact ⟨hlen, hne, hval ▸ hcond.1, hval ▸ hcond.2.1, hcond.2.2⟩
            · simp [hcond] at hwp
      · rw [if_pos hlen] at hwp
        simp at hwp
    · rintro ⟨hlen, hne, h1, h4, halpha⟩
      refine ⟨(word, strip_stress (prons.headD [])), ?_⟩
      unfold filterEntry
      rw [if_neg (by simp [hlen])]
      rw [count_syllables_ok _ hne]
      show (if 1 ≤ (prons.headD []).countP digitFinal ∧
          (prons.headD []).countP digitFinal ≤ 4 ∧ isalpha word = true then
        Except.ok (some (word, strip_stress (prons.headD [])))
      else Except.ok none) = Except.ok (some (word, strip_stress (prons.headD [])))
      rw [if_pos ⟨h1, h4, halpha⟩]
  · intro entries
    induction entries with
    | nil =>
        intro cs c hcs
        have hnil : cs = [] := (Except.ok.inj hcs).symm
        subst hnil
        simp
    | cons e rest ih =>
        intro cs c hcs
        unfold buildCandidates at hcs
        cases hfe : filterEntry e.1 e.2 with
        | error err => rw [hfe] at hcs; simp at hcs
        | ok o =>
            cases o with
            | none =>
                rw [hfe] at hcs
                rw [ih cs c hcs]
                constructor
                · rintro ⟨e1, he1, hfe1⟩
                  exact ⟨e1, by simp [he1], hfe1⟩
                · rintro ⟨e1, he1, hfe1⟩
                  rcases List.mem_cons.mp he1 with rfl | he2
                  · rw [hfe] at hfe1
                    simp at hfe1
                  · exact ⟨e1, he2, hfe1⟩
            | some c0 =>
                rw [hfe] at hcs
                cases hrec : buildCandidates rest with
                | error err => rw [hrec] at hcs; simp [Except.map] at hcs
                | ok cs0 =>
                    rw [hrec] at hcs
                    simp only [Except.map, Except.ok.injEq] at hcs
                    subst hcs
                    rw [List.mem_cons]
                    constructor
                    · rintro (rfl | hmem)
                      · exact ⟨e, by simp, hfe⟩
                      · obtain ⟨e1, he1, hfe1⟩ := (ih cs0 c hrec).mp hmem
                        exact ⟨e1, by simp [he1], hfe1⟩
                    · rintro ⟨e1, he1, hfe1⟩
                      rcases List.mem_cons.mp he1 with rfl | he2
                      · rw [hfe] at hfe1
                        have hc : c0 = c := by simpa using hfe1
                        exact Or.inl hc.symm
                      · exact Or.inr ((ih cs0 c hrec).mpr ⟨e1, he2, hfe1⟩)

/-- Witness for C7_eligibility at a concrete admissible entry. -/
theorem C7_eligibility_witness :
    (∃ wp, filterEntry "cat" [["K", "AE1", "T"]] = .ok (some wp)) ∧
    (∃ e ∈ [(("cat" : String), [["K", "AE1", "T"]])],
      filterEntry e.1 e.2 = .ok (some ("cat", ["K", "AE", "T"]))) := by
  constructor
  · exact (C7_eligibility.1 "cat" [["K", "AE1", "T"]]).mpr (by decide)
  · exact (C7_eligibility.2 [("cat", [["K", "AE1", "T"]])]
      [("cat", ["K", "AE", "T"])] ("cat", ["K", "AE", "T"]) (by decide)).mp
      (by decide)

/-- The model of `scores.sort()` equals any ascending sorted permutation
of the scores (such a permutation is unique over the rationals). -/
theorem insertionSort_eq_of_sorted (l sorted : List ℚ)
    (hp : sorted.Perm l) (hs : sorted.Sorted (· ≤ ·)) :
    l.insertionSort (· ≤ ·) = sorted :=
  List.eq_of_perm_of_sorted ((List.perm_insertionSort _ l).trans hp.symm)
    (List.sorted_insertionSort _ l) hs

/-- A non-empty score list summarizes successfully, with `n` the number
of scores. -/
theorem summarize_ok (scores : List ℚ) (h : scores ≠ []) :
    ∃ s, summarize scores = .ok s ∧ s.n = scores.length := by
  have hlen : (scores.insertionSort (· ≤ ·)).length = scores.length :=
    (List.perm_insertionSort _ scores).length_eq
  have hne : ¬ (scores.insertionSort (· ≤ ·)).length = 0 := by
    rw [hlen]
    exact fun h0 => h (List.length_eq_zero.mp h0)
  simp only [summarize]
  rw [if_neg hne]
  exact ⟨_, rfl, hlen⟩

/-- C6. For every non-empty list of metric values, the reported median is
the element at index `len // 2` of the ascending sorted permutation of
the values: the upper median for even counts, not an average of the two
middle elements. -/
theorem C6_median (scores sorted : List ℚ) (hne : scores ≠ [])
    (hperm : sorted.Perm scores) (hsorted : sorted.Sorted (· ≤ ·)) :
    ∃ s, summarize scores = .ok s ∧
      s.median = sorted.getD (scores.length / 2) 0 ∧ s.n = scores.length := by
  have hsort : scores.insertionSort (· ≤ ·) = sorted :=
    insertionSort_eq_of_sorted scores sorted hperm hsorted
  have hlen : sorted.length = scores.length := hperm.length_eq
  have hne0 : ¬ (scores.insertionSort (· ≤ ·)).length = 0 := by
    rw [hsort, hlen]
    exact fun h0 => hne (List.length_eq_zero.mp h0)
  simp only [summarize]
  rw [if_neg hne0, hsort, hlen]
  exact ⟨_, rfl, rfl, rfl⟩

/-- Witness for C6_median: the spec's even-count scenario
`[1.0, 2.0, 3.0, 4.0]` has median `3.0` (index `4 // 2 = 2`), not `2.5`. -/
theorem C6_median_witness :
    ∃ s, summarize [1, 2, 3, 4] = .ok s ∧ s.median = 3 ∧ s.median ≠ 5/2 ∧
      s.n = 4 := by
  obtain ⟨s, hs, hmed, hn⟩ := C6_median [1, 2, 3, 4] [1, 2, 3, 4] (by decide)
    (List.Perm.refl _) (by norm_num [List.sorted_cons])
  refine ⟨s, hs, ?_, ?_, hn⟩
  · rw [hmed]
    rfl
  · rw [hmed]
    norm_num

/-- C10.  The per-seed aggregation has an unstated non-emptiness
precondition: when the parsed scoring output yields zero metric values,
`mean = sum(scores)/len(scores)` divides by zero; the iteration raises
`ZeroDivisionError`, no summary is produced for the seed, and — the loop
having no exception handling — the whole run crashes. -/
theorem C10_zero_scores (lines : List String) (words : List String)
    (seed : Int) (fs : List String) (engine : Int → EngineResult)
    (wordsOf : Int → List String) (rest : List Int)
    (hp : parseScores lines = .ok [])
    (he : engine seed = .output lines) :
    (perSeed (.output lines) words seed fs).1 =
      .error "ZeroDivisionError: division by zero" ∧
    runBaseline engine wordsOf (seed :: rest) fs =
      ([], some "ZeroDivisionError: division by zero",
        fsAdd (outputPath seed) (fsAdd (inputPath seed) fs)) := by
  have h1 : perSeed (.output lines) words seed fs =
      (.error "ZeroDivisionError: division by zero",
        fsAdd (outputPath seed) (fsAdd (inputPath seed) fs)) := by
    simp only [perSeed]
    rw [hp]
    rfl
  have h2 : perSeed (engine seed) (wordsOf seed) seed fs =
      (.error "ZeroDivisionError: division by zero",
        fsAdd (outputPath seed) (fsAdd (inputPath seed) fs)) := by
    rw [he]
    exact h1
  refine ⟨by rw [h1], ?_⟩
  simp only [runBaseline, h2]

/-- Witness for C10_zero_scores: an output file holding only the header
row parses to zero scores and crashes the run. -/
theorem C10_zero_scores_witness :
    (perSeed (.output [score_col]) ["HH AH"] 5 []).1 =
      .error "ZeroDivisionError: division by zero" ∧
    runBaseline (fun _ => .output [score_col]) (fun _ => ["HH AH"]) [5] [] =
      ([], some "ZeroDivisionError: division by zero",
        fsAdd (outputPath 5) (fsAdd (inputPath 5) [])) :=
  C10_zero_scores [score_col] ["HH AH"] 5 [] (fun _ => .output [score_col])
    (fun _ => ["HH AH"]) [] (by decide) rfl

/-- C2, counterexample to the claim as stated.  With an engine that times
out on seed 42 but would succeed on seed 123, the run reports no summary
at all and stops at the first error: the failure of one seed aborts all
subsequent seeds, because the loop body has no exception handling. -/
theorem C2_counterexample :
    (runBaseline
        (fun s => if s = 42 then EngineResult.timeout
          else .output [score_col, "3.5"])
        (fun _ => ["HH AH"]) [42, 123] []).1 = [] ∧
    (runBaseline
        (fun s => if s = 42 then EngineResult.timeout
          else .output [score_col, "3.5"])
        (fun _ => ["HH AH"]) [42, 123] []).2.1 = some "TimeoutExpired" ∧
    ∃ s, (perSeed (.output [score_col, "3.5"]) ["HH AH"] 123 []).1 = .ok s := by
  refine ⟨by decide, by decide, ?_⟩
  obtain ⟨v, hv⟩ : ∃ v, parseScores [score_col, "3.5"] = .ok [v] := ⟨_, rfl⟩
  obtain ⟨s, hs, _⟩ := summarize_ok [v] (by simp)
  refine ⟨s, ?_⟩
  simp only [perSeed]
  rw [hv]
  simp only [hs]

/-- C2, amended.  When the sampling-or-scoring step of one seed raises an
error, the error propagates uncaught: the run terminates at that seed with
no summary for it, and no subsequent seed is processed or reported. -/
theorem C2_abort (engine : Int → EngineResult) (wordsOf : Int → List String)
    (s : Int) (rest : List Int) (fs : List String) (e : String)
    (h : (perSeed (engine s) (wordsOf s) s fs).1 = .error e) :
    runBaseline engine wordsOf (s :: rest) fs =
      ([], some e, (perSeed (engine s) (wordsOf s) s fs).2) := by
  rcases hp : perSeed (engine s) (wordsOf s) s fs with ⟨r, fs1⟩
  rw [hp] at h
  have hr : r = .error e := h
  subst hr
  simp [runBaseline, hp]

/-- Witness for C2_abort: a timeout on the first of two seeds stops the
run before the second. -/
theorem C2_abort_witness :
    runBaseline (fun _ => EngineResult.timeout) (fun _ => ["HH AH"])
        [42, 123] [] =
      ([], some "TimeoutExpired",
        (perSeed EngineResult.timeout ["HH AH"] 42 []).2) :=
  C2_abort (fun _ => EngineResult.timeout) (fun _ => ["HH AH"]) 42 [123] []
    "TimeoutExpired" (by decide)

/-- The output-file case of a per-seed iteration, written with the
short-circuiting composition of parsing and summarizing. -/
theorem perSeed_output_eq (words lines : List String) (seed : Int)
    (fs : List String) :
    perSeed (.output lines) words seed fs =
      match (parseScores lines).bind summarize with
      | .error e => (.error e, fsAdd (outputPath seed) (fsAdd (inputPath seed) fs))
      | .ok s =>
          (.ok s, ((fsAdd (outputPath seed) (fsAdd (inputPath seed) fs)).erase
            (inputPath seed)).erase (outputPath seed)) := by
  simp only [perSeed]
  cases parseScores lines with
  | error e => rfl
  | ok scores =>
      cases summarize scores with
      | error e => rfl
      | ok s => rfl

/-- The two temp paths of a seed differ (their lengths differ). -/
theorem inputPath_ne_outputPath (seed : Int) :
    inputPath seed ≠ outputPath seed := by
  intro h
  have h2 := congrArg (fun s => s.data.length) h
  simp [inputPath, outputPath, String.data_append] at h2

/-- C3, counterexample to the claim as stated.  A scoring-engine timeout
raises `TimeoutExpired` before the `os.remove` calls at the end of the
loop body are reached, so the temporary input file written for the seed
remains on disk, contradicting cleanup on every exit path. -/
theorem C3_counterexample :
    (perSeed EngineResult.timeout ["HH AH"] 42 []).1 =
      .error "TimeoutExpired" ∧
    inputPath 42 ∈ (perSeed EngineResult.timeout ["HH AH"] 42 []).2 := by
  decide

/-- C3, amended.  Temporary files are deleted only on the success exit
path: a run that parses and summarizes successfully removes both temp
files (restoring the filesystem), while a timeout raises the timeout
error and leaves the seed's temporary input file on disk. -/
theorem C3_cleanup (words : List String) (seed : Int) (fs : List String)
    (lines : List String)
    (hin : inputPath seed ∉ fs) (hout : outputPath seed ∉ fs) :
    perSeed .timeout words seed fs =
      (.error "TimeoutExpired", fs ++ [inputPath seed]) ∧
    (∀ s, (perSeed (.output lines) words seed fs).1 = .ok s →
      (perSeed (.output lines) words seed fs).2 = fs) := by
  have hio : inputPath seed ≠ outputPath seed := inputPath_ne_outputPath seed
  have hfs1 : fsAdd (inputPath seed) fs = fs ++ [inputPath seed] := by
    simp [fsAdd, hin]
  have hout1 : outputPath seed ∉ fs ++ [inputPath seed] := by
    simp only [List.mem_append, List.mem_singleton]
    rintro (hmem | heq)
    · exact hout hmem
    · exact hio heq.symm
  have hfs2 : fsAdd (outputPath seed) (fs ++ [inputPath seed]) =
      fs ++ [inputPath seed] ++ [outputPath seed] := by
    simp [fsAdd, hout1]
  have herase :
      ((fs ++ [inputPath seed] ++ [outputPath seed]).erase
        (inputPath seed)).erase (outputPath seed) = fs := by
    rw [List.append_assoc, List.singleton_append,
      List.erase_append_right _ hin, List.erase_cons_head,
      List.erase_append_right _ hout, List.erase_cons_head, List.append_nil]
  constructor
  · simp only [perSeed, hfs1]
  · intro s hs
    rw [perSeed_output_eq] at hs ⊢
    cases hps : (parseScores lines).bind summarize with
    | error e =>
        rw [hps] at hs
        simp at hs
    | ok s2 =>
        simp only [hfs1, hfs2]
        exact herase

/-- Witness for C3_cleanup on an empty filesystem. -/
theorem C3_cleanup_witness :
    perSeed .timeout ["HH AH"] 42 [] =
      (.error "TimeoutExpired", [] ++ [inputPath 42]) ∧
    (∀ s, (perSeed (.output [score_col, "3.5"]) ["HH AH"] 42 []).1 = .ok s →
      (perSeed (.output [score_col, "3.5"]) ["HH AH"] 42 []).2 = []) :=
  C3_cleanup ["HH AH"] 42 [] [score_col, "3.5"]
    (List.not_mem_nil _) (List.not_mem_nil _)

/-- C5, counterexample to the claim as stated.  The script performs no
row-count check: with a two-transcription sample but an engine output
holding a single data row, the invocation silently succeeds with one
score (`n = 1`) instead of failing with `MalformedOutputError`. -/
theorem C5_counterexample :
    (∃ s, (perSeed (.output [score_col, "3.5"]) ["HH AH0", "K IY1"] 9 []).1 =
        .ok s ∧ s.n = 1) ∧
    (["HH AH0", "K IY1"] : List String).length = 2 := by
  refine ⟨?_, rfl⟩
  obtain ⟨v, hv⟩ : ∃ v, parseScores [score_col, "3.5"] = .ok [v] := ⟨_, rfl⟩
  obtain ⟨s, hs, hn⟩ := summarize_ok [v] (by simp)
  refine ⟨s, ?_, hn⟩
  simp only [perSeed]
  rw [hv]
  simp only [hs]

/-- When the data-row loop succeeds, it yields exactly one score per
non-blank data row. -/
theorem parseRows_length (idx : Nat) :
    ∀ (rows : List String) (scores : List ℚ), parseRows idx rows = .ok scores →
      scores.length = rows.countP (fun l => !(pyStrip l).data.isEmpty) := by
  intro rows
  induction rows with
  | nil =>
      intro scores h
      have hn : scores = [] := (Except.ok.inj h).symm
      subst hn
      rfl
  | cons line rest ih =>
      intro scores h
      rw [parseRows] at h
      by_cases hblank : (pyStrip line).data = []
      · rw [if_pos hblank] at h
        rw [List.countP_cons]
        have hb0 : (!(pyStrip line).data.isEmpty) = false := by
          simp [hblank]
        rw [hb0, if_neg (by simp)]
        simpa using ih scores h
      · rw [if_neg hblank] at h
        rw [List.get?_eq_getElem?] at h
        cases hf : (pySplit ',' line)[idx]? with
        | none => simp [hf] at h
        | some field =>
            simp only [hf] at h
            cases hv : pyFloat field with
            | none => simp [hv] at h
            | some v =>
                simp only [hv] at h
                cases hrec : parseRows idx rest with
                | error e => simp [hrec, Except.map] at h
                | ok vs =>
                    simp only [hrec, Except.map, Except.ok.injEq] at h
                    subst h
                    rw [List.countP_cons]
                    have hb2 : (!(pyStrip line).data.isEmpty) = true := by
                      simp [List.isEmpty_iff, hblank]
                    rw [hb2, if_pos rfl]
                    simp [ih vs hrec]

/-- C5, amended.  A successful scoring invocation returns exactly one
score per non-blank data line of the engine's output file; the script
never compares that count with the number of input transcription lines,
so an output shorter (or longer) than the sample is accepted silently —
there is no `MalformedOutputError` row-count check.  A non-numeric or
missing field still fails the invocation. -/
theorem C5_rowcount (lines : List String) (scores : List ℚ)
    (h : parseScores lines = .ok scores) :
    scores.length = (lines.drop 1).countP (fun l => !(pyStrip l).data.isEmpty) := by
  cases lines with
  | nil => simp [parseScores] at h
  | cons header rest =>
      rw [parseScores] at h
      cases hidx : (pySplit ',' header).findIdx? (fun h2 => h2 == score_col) with
      | none => simp [hidx] at h
      | some idx =>
          simp only [hidx] at h
          simpa using parseRows_length idx rest scores h

/-- Witness for C5_rowcount: one header, one data row, one blank row
parse to a single score. -/
theorem C5_rowcount_witness :
    ∃ scores : List ℚ, parseScores [score_col, "3.5", ""] = .ok scores ∧
      scores.length =
        ([score_col, "3.5", ""].drop 1).countP
          (fun l => !(pyStrip l).data.isEmpty) := by
  obtain ⟨v, hv⟩ : ∃ v, parseScores [score_col, "3.5", ""] = .ok [v] := ⟨_, rfl⟩
  exact ⟨[v], hv, C5_rowcount _ _ hv⟩
